import Mathlib

/-!
Shallow embedding of the chunking algorithm and virtual-window engine of
`src/main.ts` (class `VirtualContent`).  JS strings are modelled as `List Char`
(one element per UTF-16 code unit), JS numbers as `ℤ` where only integral
values occur, and the sparse per-instance arrays as explicit structures.
DOM mechanics (element creation, measurement reads, event subscription) are
outside the model, as the spec's §1 places them outside the core.
-/

/-- JS `str.substring(offset, offset + chunkLength)`, `splitString` of
`main.ts` lines 412-419: `new Array(Math.ceil(str.length / chunkLength))`
mapped to consecutive substrings.  For `chunkLength > 0`,
`Math.ceil(a / b) = (a + b - 1) / b` in natural division. -/
def splitString (str : List Char) (chunkLength : ℕ) : List (List Char) :=
  (List.range ((str.length + chunkLength - 1) / chunkLength)).map
    (fun i => (str.drop (i * chunkLength)).take chunkLength)

/-- JS `String.prototype.lastIndexOf` for a single character: the index of the
last occurrence, `-1` when absent. -/
def lastIndexOfAux (ch : Char) : List Char → Option ℕ
  | [] => none
  | c :: rest =>
    match lastIndexOfAux ch rest with
    | some i => some (i + 1)
    | none => if c = ch then some 0 else none

/-- JS `s.lastIndexOf(ch)` as an integer (`-1` when the character is absent). -/
def lastIndexOf (l : List Char) (ch : Char) : ℤ :=
  match lastIndexOfAux ch l with
  | some i => (i : ℤ)
  | none => -1

/-- JS `String.prototype.indexOf` for a single character: the index of the
first occurrence, `-1` when absent. -/
def firstIndexOf (l : List Char) (ch : Char) : ℤ :=
  match l.findIdx? (fun c => c = ch) with
  | some i => (i : ℤ)
  | none => -1

/-- One iteration of the repair loop of `splitHtml` (`main.ts` lines 424-452).
In the repair branch `openTag ≥ 0` holds (it exceeds `closeTag ≥ -1`) and
`nextChunkCloseTag ≥ 0` always, so `Int.toNat` slicing is faithful to the JS
`slice` calls.  `!chunks[i + 1]` is true both past the end (`undefined`) and
for an empty string, hence the two-part `lastChunk` disjunction. -/
def splitHtmlStep (chunks : List (List Char)) (i : ℕ) : List (List Char) :=
  let cur := chunks.getD i []
  let next := chunks.getD (i + 1) []
  let openTag := lastIndexOf cur '<'
  let closeTag := lastIndexOf cur '>'
  let unclosedTagFound := openTag > closeTag
  let lastChunk := chunks.length ≤ i + 1 ∨ next = []
  if ¬unclosedTagFound ∨ lastChunk then
    chunks
  else
    let nextChunkCloseTag := lastIndexOf next '>' + 1
    if nextChunkCloseTag > (cur.length : ℤ) - openTag then
      (chunks.set (i + 1) (cur.drop openTag.toNat ++ next)).set i (cur.take openTag.toNat)
    else
      (chunks.set i (cur ++ next.take nextChunkCloseTag.toNat)).set (i + 1)
        (next.drop nextChunkCloseTag.toNat)

/-- `splitHtml` of `main.ts` lines 421-455: plain split, then the in-place
repair loop `for (let i = 0; i < chunks.length; i++)` (the length never
changes, so folding over the initial index range is the loop). -/
def splitHtml (str : List Char) (chunkLength : ℕ) : List (List Char) :=
  let chunks := splitString str chunkLength
  (List.range chunks.length).foldl splitHtmlStep chunks

/-- Modelled from the spec (claim C3 wording): the same repair step, but the
fragment taken from the next chunk runs up to and including the next chunk's
FIRST `>` ("inspect the following chunk's first `>` occurrence"), where the
source uses `lastIndexOf`. -/
def splitHtmlClaimStep (chunks : List (List Char)) (i : ℕ) : List (List Char) :=
  let cur := chunks.getD i []
  let next := chunks.getD (i + 1) []
  let openTag := lastIndexOf cur '<'
  let closeTag := lastIndexOf cur '>'
  let unclosedTagFound := openTag > closeTag
  let lastChunk := chunks.length ≤ i + 1 ∨ next = []
  if ¬unclosedTagFound ∨ lastChunk then
    chunks
  else
    let nextChunkCloseTag := firstIndexOf next '>' + 1
    if nextChunkCloseTag > (cur.length : ℤ) - openTag then
      (chunks.set (i + 1) (cur.drop openTag.toNat ++ next)).set i (cur.take openTag.toNat)
    else
      (chunks.set i (cur ++ next.take nextChunkCloseTag.toNat)).set (i + 1)
        (next.drop nextChunkCloseTag.toNat)

/-- Modelled from the spec (claim C3 wording): markup-aware splitting whose
repair consults the next chunk's first `>`. -/
def splitHtmlClaim (str : List Char) (chunkLength : ℕ) : List (List Char) :=
  let chunks := splitString str chunkLength
  (List.range chunks.length).foldl splitHtmlClaimStep chunks

/-- `getChunkRangeForReplacement` of `main.ts` lines 192-215, with the
instance state made explicit: `threshold` is `this.threshold`, `n` is
`this.chunks.length`, `pointer` the argument.  The sequential mutations of
`startOffset` and `endOffset` are unrolled into primed bindings. -/
def getChunkRangeForReplacement (threshold n pointer : ℤ) : ℤ × ℤ :=
  let lo : ℤ := 0
  let hi : ℤ := n
  let startOffset := pointer - threshold
  let endOffset := pointer + threshold
  if startOffset < lo ∧ endOffset > hi then
    (lo, hi)
  else
    let endOffset' := if startOffset < lo then endOffset + |lo - startOffset| else endOffset
    let startOffset' := if startOffset < lo then lo else startOffset
    let startOffset'' := if endOffset' > hi then startOffset' - endOffset' + hi else startOffset'
    let endOffset'' := if endOffset' > hi then hi else endOffset'
    (max startOffset'' lo, min endOffset'' hi)

/-- `needUpdate` of `main.ts` lines 259-285, replace-mode branch: equal
pointers short-circuit to `false`, otherwise the two clamped ranges are
compared componentwise.  It only reads instance state, so it is a pure
function of `(threshold, n, prevPointer, nextPointer)`. -/
def needUpdate (threshold n prevPointer nextPointer : ℤ) : Bool :=
  if prevPointer = nextPointer then
    false
  else
    let prev := getChunkRangeForReplacement threshold n prevPointer
    let next := getChunkRangeForReplacement threshold n nextPointer
    decide (prev.1 ≠ next.1) || decide (prev.2 ≠ next.2)

/-- The scan of `getCurrentPointer` (`main.ts` lines 217-227): the loop body
returns at the first index whose cached offset exceeds the effective scroll
position.  `getChunkOffsetTop(i) = this.offsets[i] || 0` collapses holes and
stored zeroes alike to `0`, so the cache is modelled as a `List ℤ` whose
unset entries hold `0`. -/
def gcpFind (scroll : ℤ) : List ℤ → Option ℕ
  | [] => none
  | o :: rest => if scroll < o then some 0 else (gcpFind scroll rest).map (fun j => j + 1)

/-- `getCurrentPointer` of `main.ts` lines 217-227: `return --i` at the first
exceeding offset (one less than that index, `-1` at index `0`), else
`this.offsets.length - 1`. -/
def getCurrentPointer (offsets : List ℤ) (scroll : ℤ) : ℤ :=
  match gcpFind scroll offsets with
  | some i => (i : ℤ) - 1
  | none => (offsets.length : ℤ) - 1

/-- The three sparse per-chunk measurement arrays (`this.offsets`,
`this.heights`, `this.leftPads`): a hole (`undefined`) is `none`, a stored
number `some v`. -/
structure ChunkGeometry where
  offsets : ℕ → Option ℤ
  heights : ℕ → Option ℤ
  leftPads : ℕ → Option ℤ

/-- JS truthiness of `this.offsets[chunkIndex]` as read by `storeChunkData`:
`undefined` and `0` are falsy, any other number truthy. -/
def jsTruthyNum : Option ℤ → Bool
  | none => false
  | some v => v != 0

/-- `storeChunkData` of `main.ts` lines 467-481: each field is written only
when the incoming extra is a number (`some`) and the currently stored entry is
falsy (`!this.offsets[chunkIndex]`). -/
def storeChunkData (g : ChunkGeometry) (chunkIndex : ℕ)
    (offsetTop offsetHeight leftPad : Option ℤ) : ChunkGeometry where
  offsets :=
    if offsetTop.isSome && !jsTruthyNum (g.offsets chunkIndex) then
      fun j => if j = chunkIndex then offsetTop else g.offsets j
    else g.offsets
  heights :=
    if offsetHeight.isSome && !jsTruthyNum (g.heights chunkIndex) then
      fun j => if j = chunkIndex then offsetHeight else g.heights j
    else g.heights
  leftPads :=
    if leftPad.isSome && !jsTruthyNum (g.leftPads chunkIndex) then
      fun j => if j = chunkIndex then leftPad else g.leftPads j
    else g.leftPads

/-- The geometry cache with nothing measured. -/
def emptyGeometry : ChunkGeometry :=
  ⟨fun _ => none, fun _ => none, fun _ => none⟩

/-- JS number values as they matter to `validateString`: integral finite
values (template-stringified to their decimal form), the two infinities and
`NaN`.  Non-integral finite doubles are outside the model; no claim depends
on them. -/
inductive JsNum where
  | finite (k : ℤ)
  | posInf
  | negInf
  | nan
deriving DecidableEq

/-- JS values as they matter to `validateString`: strings, numbers, `null`,
`undefined`, booleans, and `obj` standing for any other (truthy) value such as
an object or function. -/
inductive JsVal where
  | str (s : List Char)
  | num (x : JsNum)
  | nullV
  | undefinedV
  | boolean (b : Bool)
  | obj
deriving DecidableEq

/-- `typeof v === 'string'`. -/
def typeofString : JsVal → Bool
  | .str _ => true
  | _ => false

/-- `typeof v === 'number'`. -/
def typeofNumber : JsVal → Bool
  | .num _ => true
  | _ => false

/-- `isNaN(v)` as applied by `validateString`, which only reaches it on
numbers. -/
def jsIsNaN : JsVal → Bool
  | .num .nan => true
  | _ => false

/-- Whether the claim's phrase "a finite number" holds of the value. -/
def isFiniteNumber : JsVal → Bool
  | .num (.finite _) => true
  | _ => false

/-- JS truthiness (`!str` negated): empty string, `0`, `NaN`, `null`,
`undefined` and `false` are falsy. -/
def jsTruthy : JsVal → Bool
  | .str s => !s.isEmpty
  | .num (.finite k) => k != 0
  | .num .nan => false
  | .num _ => true
  | .nullV => false
  | .undefinedV => false
  | .boolean b => b
  | .obj => true

/-- The string payload of a string value. -/
def jsStringValue : JsVal → List Char
  | .str s => s
  | _ => []

/-- JS template stringification of a number value (only reached for non-NaN
numbers). -/
def jsNumberToString : JsVal → List Char
  | .num (.finite k) => (toString k).data
  | .num .posInf => "Infinity".data
  | .num .negInf => "-Infinity".data
  | _ => []

/-- `validateString` of `main.ts` lines 583-597, with the thrown `TypeError`
as `Except.error ()`: strings pass through, non-NaN numbers are stringified,
remaining falsy values become the empty string, everything else throws. -/
def validateString (v : JsVal) : Except Unit (List Char) :=
  if typeofString v then Except.ok (jsStringValue v)
  else if typeofNumber v && !jsIsNaN v then Except.ok (jsNumberToString v)
  else if !jsTruthy v then Except.ok []
  else Except.error ()

/-- The mutable instance state touched by `setText` (`main.ts` lines
389-410).  The DOM side (`this.el.innerHTML`, scroll reset, re-render) is
outside the model. -/
structure VCState where
  chunkLength : ℕ
  chunks : List (List Char)
  pointer : ℤ
  heights : List ℤ
  leftPads : List ℤ
  offsets : List ℤ
  visibleIndexes : List ℕ
deriving DecidableEq

/-- `setText` of `main.ts` lines 389-410: validation runs first, so a thrown
`TypeError` leaves every field untouched; on success the chunk sequence is
replaced wholesale and pointer plus caches are reset. -/
def setText (st : VCState) (v : JsVal) : Except Unit VCState :=
  match validateString v with
  | Except.error e => Except.error e
  | Except.ok s =>
    Except.ok
      { st with
        chunks := splitString s st.chunkLength
        pointer := 0
        heights := []
        leftPads := []
        offsets := []
        visibleIndexes := [] }

/-- Arithmetic fact behind the round-trip: the ceiling-division chunk count
covers the whole string. -/
theorem le_ceil_div_mul (a L : ℕ) (hL : 0 < L) : a ≤ (a + L - 1) / L * L := by
  have h1 := Nat.div_add_mod (a + L - 1) L
  have h2 : (a + L - 1) % L < L := Nat.mod_lt _ hL
  have h3 : (a + L - 1) / L * L = L * ((a + L - 1) / L) := Nat.mul_comm _ _
  rw [h3]
  generalize hX : L * ((a + L - 1) / L) = X at h1 ⊢
  generalize hm : (a + L - 1) % L = m at h1 h2
  omega

/-- Flattening the mapped ranges gives an initial segment of the string. -/
theorem join_range_chunks (s : List Char) (L : ℕ) (n : ℕ) :
    ((List.range n).map (fun i => (s.drop (i * L)).take L)).flatten = s.take (n * L) := by
  induction n with
  | zero => simp
  | succ n ih =>
    rw [List.range_succ, List.map_append, List.flatten_append, ih]
    simp only [List.map_cons, List.map_nil, List.flatten_cons, List.flatten_nil, List.append_nil]
    rw [Nat.succ_mul, List.take_add]

/-- Concatenating the plain chunks reproduces the string (shared helper). -/
theorem splitString_join (s : List Char) (L : ℕ) (hL : 0 < L) :
    (splitString s L).flatten = s := by
  unfold splitString
  rw [join_range_chunks]
  exact List.take_of_length_le (le_ceil_div_mul s.length L hL)

/-- C1: for every string `s` and positive `maxChunkLength`, concatenating in
order the chunks produced by plain splitting (`splitString`) reproduces `s`
exactly. -/
theorem splitString_roundtrip (s : List Char) (L : ℕ) (hL : 0 < L) :
    (splitString s L).flatten = s :=
  splitString_join s L hL

/-- C1 witness: the round-trip at the spec's own scenario
`split("0123456789ab", 5)`. -/
theorem splitString_roundtrip_witness :
    0 < 5 ∧ (splitString "0123456789ab".data 5).flatten = "0123456789ab".data :=
  ⟨by decide, splitString_roundtrip "0123456789ab".data 5 (by decide)⟩

/-- Rewriting two adjacent entries while preserving their concatenation
preserves the flattening of the whole list. -/
theorem flatten_set_set (c : List (List Char)) (i : ℕ) (x y : List Char)
    (hi : i + 1 < c.length)
    (hxy : x ++ y = c.getD i [] ++ c.getD (i + 1) []) :
    ((c.set (i + 1) y).set i x).flatten = c.flatten := by
  induction c generalizing i with
  | nil => simp at hi
  | cons a t ih =>
    cases i with
    | zero =>
      cases t with
      | nil => simp at hi
      | cons b t' =>
        simp only [List.getD_cons_zero, List.getD_cons_succ] at hxy
        simp only [List.set_cons_succ, List.set_cons_zero, List.flatten_cons]
        rw [← List.append_assoc, ← List.append_assoc, hxy]
    | succ i' =>
      simp only [List.getD_cons_succ] at hxy
      simp only [List.set_cons_succ, List.flatten_cons]
      have hi' : i' + 1 < t.length := by
        simpa [Nat.succ_lt_succ_iff] using hi
      rw [ih i' hi' hxy]

/-- Each iteration of the boundary repair only moves characters between the
two adjacent chunks, so the concatenation is unchanged. -/
theorem splitHtmlStep_flatten (c : List (List Char)) (i : ℕ) :
    (splitHtmlStep c i).flatten = c.flatten := by
  simp only [splitHtmlStep]
  split_ifs with h1 h2
  · rfl
  · push_neg at h1
    obtain ⟨hA, hB, hC⟩ := h1
    apply flatten_set_set
    · omega
    · rw [← List.append_assoc, List.take_append_drop]
  · push_neg at h1
    obtain ⟨hA, hB, hC⟩ := h1
    rw [List.set_comm _ _ _ (by omega : i ≠ i + 1)]
    apply flatten_set_set
    · omega
    · rw [List.append_assoc, List.take_append_drop]

/-- The whole repair loop preserves the concatenation. -/
theorem foldl_splitHtmlStep_flatten (l : List ℕ) (c : List (List Char)) :
    (l.foldl splitHtmlStep c).flatten = c.flatten := by
  induction l generalizing c with
  | nil => rfl
  | cons a t ih => rw [List.foldl_cons, ih, splitHtmlStep_flatten]

/-- C2: for every string `s` and positive `maxChunkLength`, concatenating in
order the chunks produced by markup-aware splitting (`splitHtml`) reproduces
`s` exactly; each repair step only moves substrings between adjacent chunks
(`splitHtmlStep_flatten`), so no character is dropped or duplicated. -/
theorem splitHtml_roundtrip (s : List Char) (L : ℕ) (hL : 0 < L) :
    (splitHtml s L).flatten = s := by
  simp only [splitHtml]
  rw [foldl_splitHtmlStep_flatten]
  exact splitString_join s L hL

/-- C2 witness: the markup-aware round-trip on a string whose split boundary
falls inside a tag. -/
theorem splitHtml_roundtrip_witness :
    0 < 2 ∧ (splitHtml "a<b>c".data 2).flatten = "a<b>c".data :=
  ⟨by decide, splitHtml_roundtrip "a<b>c".data 2 (by decide)⟩

/-- C3: the source's repair consults the next chunk's LAST `>` via
`chunks[i + 1].lastIndexOf('>') + 1`, not its first `>`: on
`splitHtml("x<bbbbc>d>ee", 6)` the code pulls `c>d>` (through the last `>`)
into the first chunk, while the repair described by the spec (first `>`,
`splitHtmlClaim`) pulls only `c>`. -/
theorem splitHtml_lastCloseTag_eval :
    splitHtml "x<bbbbc>d>ee".data 6 = ["x<bbbbc>d>".data, "ee".data] ∧
    splitHtmlClaim "x<bbbbc>d>ee".data 6 = ["x<bbbbc>".data, "d>ee".data] ∧
    splitHtml "x<bbbbc>d>ee".data 6 ≠ splitHtmlClaim "x<bbbbc>d>ee".data 6 :=
  ⟨by decide, by decide, by decide⟩

/-- Case analysis of the clamped range when the chunk count can hold a full
window: the window always spans exactly `2 * t` chunks. -/
theorem range_width_of_le (p t n : ℤ) (ht : 0 < t) (hn : 2 * t ≤ n) :
    0 ≤ (getChunkRangeForReplacement t n p).1 ∧
      (getChunkRangeForReplacement t n p).2 ≤ n ∧
      (getChunkRangeForReplacement t n p).2 - (getChunkRangeForReplacement t n p).1 = 2 * t := by
  simp only [getChunkRangeForReplacement]
  split_ifs with h1 h2 h3 h4 h5 <;>
    simp only [Prod.fst, Prod.snd] <;>
    [skip;
     rw [abs_of_nonneg (by omega : (0:ℤ) ≤ 0 - (p - t))] at h3 ⊢;
     rw [abs_of_nonneg (by omega : (0:ℤ) ≤ 0 - (p - t))] at h3 ⊢;
     skip;
     skip] <;>
    refine ⟨?_, ?_, ?_⟩ <;> omega

/-- C4: in replace mode, for every pointer `p` and positive threshold `t`,
whenever `n ≥ 2t` the computed range `[start, end)` over `n` chunks satisfies
`start ≥ 0`, `end ≤ n` and `end - start = min(2t, n)`; with `n = 10`, `t = 2`,
pointer `0` yields `[0, 4)` and pointer `9` yields `[6, 10)` (edge underflow
and overflow are compensated on the opposite bound). -/
theorem getChunkRangeForReplacement_width (p t n : ℤ) (ht : 0 < t) (hn : 2 * t ≤ n) :
    (0 ≤ (getChunkRangeForReplacement t n p).1 ∧
      (getChunkRangeForReplacement t n p).2 ≤ n ∧
      (getChunkRangeForReplacement t n p).2 - (getChunkRangeForReplacement t n p).1 =
        min (2 * t) n) ∧
    getChunkRangeForReplacement 2 10 0 = (0, 4) ∧
    getChunkRangeForReplacement 2 10 9 = (6, 10) := by
  have h := range_width_of_le p t n ht hn
  rw [min_eq_left hn]
  exact ⟨h, by decide, by decide⟩

/-- C4 witness: the spec's scenario `n = 10`, `t = 2`, `p = 0`. -/
theorem getChunkRangeForReplacement_width_witness :
    (0:ℤ) < 2 ∧ 2 * 2 ≤ (10:ℤ) ∧
      (getChunkRangeForReplacement 2 10 0).2 - (getChunkRangeForReplacement 2 10 0).1 =
        min (2 * 2) (10:ℤ) :=
  ⟨by decide, by decide,
    (getChunkRangeForReplacement_width 0 2 10 (by decide) (by decide)).1.2.2⟩

/-- C10: `getChunkRangeForReplacement` is total and in-bounds for every
integer pointer (including the `-1` produced by the pointer resolver when no
offsets are cached), every positive threshold and every chunk count `n ≥ 0`:
`0 ≤ start ≤ end ≤ n`, so `chunks.slice(start, end)` never indexes out of
range. -/
theorem getChunkRangeForReplacement_inBounds (p t n : ℤ) (ht : 0 < t) (hn : 0 ≤ n) :
    0 ≤ (getChunkRangeForReplacement t n p).1 ∧
      (getChunkRangeForReplacement t n p).1 ≤ (getChunkRangeForReplacement t n p).2 ∧
      (getChunkRangeForReplacement t n p).2 ≤ n := by
  simp only [getChunkRangeForReplacement]
  split_ifs with h1 h2 h3 h4 h5 <;>
    simp only [Prod.fst, Prod.snd] <;>
    [skip;
     rw [abs_of_nonneg (by omega : (0:ℤ) ≤ 0 - (p - t))] at h3 ⊢;
     rw [abs_of_nonneg (by omega : (0:ℤ) ≤ 0 - (p - t))] at h3 ⊢;
     skip;
     skip] <;>
    refine ⟨?_, ?_, ?_⟩ <;> omega

/-- C10 witness: the resolver's `-1` pointer with `t = 2`, `n = 3`. -/
theorem getChunkRangeForReplacement_inBounds_witness :
    (0:ℤ) < 2 ∧ (0:ℤ) ≤ 3 ∧ 0 ≤ (getChunkRangeForReplacement 2 3 (-1)).1 :=
  ⟨by decide, by decide, (getChunkRangeForReplacement_inBounds (-1) 2 3 (by decide) (by decide)).1⟩

/-- C9: in replace mode the needs-update check returns `true` exactly when the
clamped range for the previous pointer differs from the clamped range for the
next pointer; in particular it returns `false` for equal pointers.  The model
is a pure function of `(threshold, n, prevPointer, nextPointer)`, matching the
replace-mode branch of the source, which only reads instance state. -/
theorem needUpdate_iff_range_ne (t n p q : ℤ) :
    (needUpdate t n p q = true ↔
      getChunkRangeForReplacement t n p ≠ getChunkRangeForReplacement t n q) ∧
    needUpdate t n p p = false := by
  constructor
  · simp only [needUpdate]
    by_cases hpq : p = q
    · subst hpq
      simp
    · simp only [hpq, if_false, Bool.or_eq_true, decide_eq_true_eq, ne_eq, Prod.ext_iff]
      tauto
  · simp [needUpdate]

/-- `gcpFind` returns `none` exactly when no cached offset exceeds the scroll
position. -/
theorem gcpFind_eq_none (scroll : ℤ) (l : List ℤ) :
    gcpFind scroll l = none ↔ ∀ o ∈ l, o ≤ scroll := by
  induction l with
  | nil => simp [gcpFind]
  | cons a rest ih =>
    simp only [gcpFind]
    by_cases h : scroll < a
    · simp only [if_pos h, List.mem_cons]
      constructor
      · intro hc
        simp at hc
      · intro hall
        exact absurd (hall a (Or.inl rfl)) (not_le.mpr h)
    · rw [if_neg h, Option.map_eq_none', ih, List.forall_mem_cons]
      simp [not_lt.mp h]

/-- `gcpFind` returns the first index whose offset exceeds the scroll
position. -/
theorem gcpFind_eq_some (scroll : ℤ) (l : List ℤ) (j : ℕ) (h : gcpFind scroll l = some j) :
    j < l.length ∧ scroll < l.getD j 0 ∧ ∀ k, k < j → l.getD k 0 ≤ scroll := by
  induction l generalizing j with
  | nil => simp [gcpFind] at h
  | cons a rest ih =>
    simp only [gcpFind] at h
    by_cases hc : scroll < a
    · rw [if_pos hc] at h
      obtain rfl : j = 0 := by simpa using h.symm
      refine ⟨by simp, by simpa using hc, ?_⟩
      intro k hk
      omega
    · rw [if_neg hc, Option.map_eq_some'] at h
      obtain ⟨j', hj', rfl⟩ := h
      obtain ⟨h1, h2, h3⟩ := ih j' hj'
      refine ⟨by simpa using h1, by simpa using h2, ?_⟩
      intro k hk
      cases k with
      | zero => simpa using not_lt.mp hc
      | succ k' => simpa using h3 k' (by omega)

/-- Monotone offset caches read monotonically through `getD`. -/
theorem sorted_getD_mono (l : List ℤ) (hs : l.Sorted (· ≤ ·)) (i j : ℕ)
    (hij : i ≤ j) (hj : j < l.length) : l.getD i 0 ≤ l.getD j 0 := by
  rcases Nat.lt_or_ge i j with hlt | hge
  · have hi : i < l.length := by omega
    rw [List.getD_eq_getElem l 0 hi, List.getD_eq_getElem l 0 hj]
    exact List.pairwise_iff_get.mp hs ⟨i, hi⟩ ⟨j, hj⟩ hlt
  · have : i = j := by omega
    subst this
    exact le_refl _

/-- C7 counterexample: with the cache state `[5, 0, 10]` and scroll position
`3`, the scan aborts at index `0` (offset `5 > 3`) and returns `-1`, although
index `1` has recorded offset `0 ≤ 3`; the result is not the greatest chunk
index whose recorded offset is at most the scroll position, so the claim fails
for arbitrary geometry-cache states. -/
theorem getCurrentPointer_nonmonotone_cex :
    getCurrentPointer [5, 0, 10] 3 = -1 ∧
    ([5, 0, 10] : List ℤ).getD 1 0 ≤ 3 ∧
    (-1 : ℤ) < 1 :=
  ⟨by decide, by decide, by decide⟩

/-- C7 (amended): when the cached offsets are monotone non-decreasing — the
spec's own data-model invariant — and the first offset does not exceed the
effective scroll position, the resolver returns the greatest chunk index whose
recorded offset is `≤` the scroll position; when no recorded offset exceeds
the scroll position it returns the last chunk index. -/
theorem getCurrentPointer_greatest (offsets : List ℤ) (scroll : ℤ)
    (hsorted : offsets.Sorted (· ≤ ·)) (hne : offsets ≠ [])
    (hhead : offsets.getD 0 0 ≤ scroll) :
    0 ≤ getCurrentPointer offsets scroll ∧
    (getCurrentPointer offsets scroll).toNat < offsets.length ∧
    offsets.getD (getCurrentPointer offsets scroll).toNat 0 ≤ scroll ∧
    (∀ j, (getCurrentPointer offsets scroll).toNat < j → j < offsets.length →
      scroll < offsets.getD j 0) ∧
    ((∀ o ∈ offsets, o ≤ scroll) →
      getCurrentPointer offsets scroll = (offsets.length : ℤ) - 1) := by
  have hlen : 0 < offsets.length := List.length_pos.mpr hne
  cases hfind : gcpFind scroll offsets with
  | none =>
    simp only [getCurrentPointer, hfind]
    have hall : ∀ o ∈ offsets, o ≤ scroll := (gcpFind_eq_none scroll offsets).mp hfind
    have htn : ((offsets.length : ℤ) - 1).toNat = offsets.length - 1 := by omega
    rw [htn]
    have hlt : offsets.length - 1 < offsets.length := by omega
    have hlast : offsets.getD (offsets.length - 1) 0 ≤ scroll := by
      rw [List.getD_eq_getElem offsets 0 hlt]
      exact hall _ (List.getElem_mem hlt)
    exact ⟨by omega, hlt, hlast, fun j hj1 hj2 => absurd (by omega : j < offsets.length) (by omega),
      fun _ => trivial⟩
  | some i =>
    simp only [getCurrentPointer, hfind]
    obtain ⟨hi, hgt, hle⟩ := gcpFind_eq_some scroll offsets i hfind
    have hipos : 0 < i := by
      by_contra hz
      have : i = 0 := by omega
      subst this
      exact absurd hhead (not_le.mpr hgt)
    have htn : ((i : ℤ) - 1).toNat = i - 1 := by omega
    rw [htn]
    refine ⟨by omega, by omega, hle (i - 1) (by omega), ?_, ?_⟩
    · intro j hj1 hj2
      calc scroll < offsets.getD i 0 := hgt
        _ ≤ offsets.getD j 0 := sorted_getD_mono offsets hsorted i j (by omega) hj2
    · intro hall
      exfalso
      have : offsets.getD i 0 ≤ scroll := by
        rw [List.getD_eq_getElem offsets 0 hi]
        exact hall _ (List.getElem_mem hi)
      omega

/-- C7 witness: a monotone cache `[0, 4]` with scroll position `2` resolves to
a pointer within bounds. -/
theorem getCurrentPointer_greatest_witness :
    ([0, 4] : List ℤ).Sorted (· ≤ ·) ∧ 0 ≤ getCurrentPointer [0, 4] 2 :=
  ⟨by simp [List.sorted_cons], (getCurrentPointer_greatest [0, 4] 2
    (by simp [List.sorted_cons]) (by decide) (by decide)).1⟩

/-- C6 counterexample: the guard `!this.offsets[chunkIndex]` treats a stored
`0` as unrecorded, so after recording `offsetTop = 0` for index `0`, a second
measurement `offsetTop = 7` overwrites it: the stored value changes. -/
theorem storeChunkData_overwrites_zero :
    (storeChunkData emptyGeometry 0 (some 0) none none).offsets 0 = some 0 ∧
    (storeChunkData (storeChunkData emptyGeometry 0 (some 0) none none) 0
        (some 7) none none).offsets 0 = some 7 :=
  ⟨rfl, rfl⟩

/-- C6 (amended): the geometry cache is write-once per field per index for
nonzero (truthy) stored values: for each field independently, once that field
of an index holds a nonzero measurement, recording a second measurement for
that index leaves that stored field unchanged — regardless of what the other
two fields hold.  (A stored `0` is falsy and may be overwritten, as the
counterexample shows.) -/
theorem storeChunkData_writeOnce (g : ChunkGeometry) (i : ℕ)
    (offsetTop offsetHeight leftPad : Option ℤ) :
    (jsTruthyNum (g.offsets i) = true →
      (storeChunkData g i offsetTop offsetHeight leftPad).offsets = g.offsets) ∧
    (jsTruthyNum (g.heights i) = true →
      (storeChunkData g i offsetTop offsetHeight leftPad).heights = g.heights) ∧
    (jsTruthyNum (g.leftPads i) = true →
      (storeChunkData g i offsetTop offsetHeight leftPad).leftPads = g.leftPads) := by
  refine ⟨fun h1 => ?_, fun h2 => ?_, fun h3 => ?_⟩
  · simp [storeChunkData, h1]
  · simp [storeChunkData, h2]
  · simp [storeChunkData, h3]

/-- C6 witness: the normal index-`0` state — stored-zero `offsetTop` (the
first chunk sits after a zero-height filler) with a truthy stored height —
still ignores a second height measurement. -/
theorem storeChunkData_writeOnce_witness :
    (storeChunkData (storeChunkData emptyGeometry 0 (some 0) (some 4) none) 0
      (some 9) (some 9) (some 9)).heights =
      (storeChunkData emptyGeometry 0 (some 0) (some 4) none).heights :=
  (storeChunkData_writeOnce (storeChunkData emptyGeometry 0 (some 0) (some 4) none) 0
    (some 9) (some 9) (some 9)).2.1 (by decide)

/-- C5: `Math.ceil(0 / chunkLength)` is `0`, so splitting empty content yields
an empty chunk array — zero chunks, not the single empty chunk the spec
requires — and `setText("")` leaves an instance with a zero-length chunk
sequence. -/
theorem setText_empty_eval :
    splitString [] 5 = [] ∧
    (setText ⟨5, [], 0, [], [], [], []⟩ (JsVal.str [])).map (fun s => s.chunks.length) =
      Except.ok 0 :=
  ⟨rfl, rfl⟩

/-- C8 counterexample: `Infinity` is neither a string nor a finite number, yet
`typeof Infinity === 'number' && !isNaN(Infinity)` holds, so `validateString`
stringifies it instead of throwing the claimed `TypeError`. -/
theorem validateString_infinity_cex :
    typeofString (JsVal.num JsNum.posInf) = false ∧
    isFiniteNumber (JsVal.num JsNum.posInf) = false ∧
    validateString (JsVal.num JsNum.posInf) = Except.ok "Infinity".data :=
  ⟨rfl, rfl, rfl⟩

/-- C8 (amended): `validateString` (hence `setText`/`setHtml`) throws a
`TypeError` exactly when its argument is truthy and neither a string nor a
non-NaN number; non-NaN numbers are stringified — the number branch runs
before the falsiness check, so every finite number including `0` becomes its
decimal string (and the infinities their template form) — while `null`,
`undefined` and the remaining falsy non-string values (`false`, and `NaN`
among numbers) become the empty string, and `setText` propagates the error
before mutating any state, so the chunk sequence and caches are unchanged
exactly when the error is thrown. -/
theorem validateString_error_iff (v : JsVal) (st : VCState) :
    (validateString v = Except.error () ↔
      (jsTruthy v = true ∧ typeofString v = false ∧
        (typeofNumber v = false ∨ jsIsNaN v = true))) ∧
    (∀ k : ℤ, validateString (JsVal.num (JsNum.finite k)) = Except.ok (toString k).data) ∧
    validateString JsVal.nullV = Except.ok [] ∧
    validateString JsVal.undefinedV = Except.ok [] ∧
    validateString (JsVal.boolean false) = Except.ok [] ∧
    validateString (JsVal.num JsNum.nan) = Except.ok [] ∧
    (setText st v = Except.error () ↔ validateString v = Except.error ()) := by
  refine ⟨?_, fun k => ?_, rfl, rfl, rfl, rfl, ?_⟩
  · cases v with
    | str s => simp [validateString, typeofString, jsTruthy, jsStringValue]
    | num x => cases x <;> simp [validateString, typeofString, typeofNumber, jsIsNaN, jsTruthy]
    | nullV => simp [validateString, typeofString, typeofNumber, jsTruthy]
    | undefinedV => simp [validateString, typeofString, typeofNumber, jsTruthy]
    | boolean b => cases b <;> simp [validateString, typeofString, typeofNumber, jsIsNaN, jsTruthy]
    | obj => simp [validateString, typeofString, typeofNumber, jsIsNaN, jsTruthy]
  · simp [validateString, typeofString, typeofNumber, jsIsNaN, jsNumberToString]
  · unfold setText
    cases hv : validateString v with
    | error e => simp
    | ok s => simp
